import Mathlib

/-!
Verification of the link-resolution core of exodus-gw
(`src/exodus_gw/models/publish.py`).

The database session is modelled as a list of `Item` rows; `resolve_links`
returns the (possibly partially mutated) row list together with an optional
structured error `(web_uri, link_to)` mirroring the `HTTPException` detail
raised for an unresolvable link.  Timestamps are modelled as natural numbers.
-/

/-- A row of the `items` table: id (primary key), web_uri, object_key,
content_type, link_to, dirty, updated, publish_id, in source order. -/
structure Item where
  id : String
  web_uri : String
  object_key : Option String
  content_type : Option String
  link_to : Option String
  dirty : Bool
  updated : Nat
  publish_id : String
deriving DecidableEq, Repr

/-- A row of the `publishes` table: id, env, state, updated. -/
structure Publish where
  id : String
  env : String
  state : String
  updated : Option Nat
deriving DecidableEq, Repr

/-- SQL COALESCE(col, ``) on an optional string column.  This also matches
Python truthiness of an optional string: the result is empty exactly when the
value is absent or the empty string. -/
def coalesce (s : Option String) : String := s.getD ""

/-- The module-level flag
`LINK_ISOLATION = (os.environ.get("EXODUS_GW_LINK_ISOLATION") or "1") == "1"`,
as a function of the value the environment variable has when the module is
imported (Python `or` takes the fallback when the left side is None or empty). -/
def LINK_ISOLATION (env : Option String) : Bool :=
  (if coalesce env = "" then "1" else coalesce env) == "1"

/-- The filter of the first query:
`Item.publish_id == self.id` and `func.coalesce(Item.link_to, "") != ""`. -/
def isLnItem (pubId : String) (it : Item) : Bool :=
  it.publish_id == pubId && coalesce it.link_to != ""

/-- `ln_items`: the publish items with non-empty link targets, in row order. -/
def lnItems (db : List Item) (pubId : String) : List Item :=
  db.filter (isLnItem pubId)

/-- `ln_item_paths = [item.link_to for item in ln_items]`. -/
def lnItemPaths (db : List Item) (pubId : String) : List String :=
  (lnItems db pubId).map (fun it => coalesce it.link_to)

/-- The fields fetched by the match Bundle: (object_key, content_type). -/
structure MatchVal where
  object_key : Option String
  content_type : Option String
deriving DecidableEq, Repr

/-- The filter of the match query: `Item.web_uri.in_(ln_item_paths)`, plus
`Item.publish_id == self.id` when LINK_ISOLATION is set. -/
def inMatchScope (isolation : Bool) (pubId : String) (paths : List String)
    (it : Item) : Bool :=
  paths.contains it.web_uri && (!isolation || it.publish_id == pubId)

/-- The rows produced by the match query, in row order. -/
def matchRows (isolation : Bool) (db : List Item) (pubId : String) :
    List Item :=
  db.filter (inMatchScope isolation pubId (lnItemPaths db pubId))

/-- The dict `matches = \x7brow.match.web_uri: \x7b...\x7d for row in query\x7d`
followed by `matches.get(uri)`: for a given uri the last matching row wins. -/
def matchesGet (rows : List Item) (uri : String) : Option MatchVal :=
  ((rows.filter (fun r => r.web_uri == uri)).map
    (fun r => MatchVal.mk r.object_key r.content_type)).getLast?

/-- The URI-to-attributes mapping a `resolve_links` call works with, built once
from the pre-mutation state. -/
def mgOf (isolation : Bool) (db : List Item) (pubId : String) :
    String → Option MatchVal :=
  matchesGet (matchRows isolation db pubId)

/-- The failure test of the loop body:
`not match or not match.get("object_key") or not match.get("content_type")`. -/
def matchFails (m : Option MatchVal) : Bool :=
  match m with
  | none => true
  | some v => coalesce v.object_key == "" || coalesce v.content_type == ""

/-- Whether the loop body raises for a given linked item. -/
def failsFor (mg : String → Option MatchVal) (it : Item) : Bool :=
  matchFails (mg (coalesce it.link_to))

/-- The pair of assignments `ln_item.object_key = ...` and
`ln_item.content_type = ...` performed on a row. -/
def setKT (x : Item) (k t : Option String) : Item :=
  { x with object_key := k, content_type := t }

/-- The in-place mutation of the session row with the given primary key. -/
def updateItem (db : List Item) (itemId : String) (ok ct : Option String) :
    List Item :=
  db.map (fun it => if it.id == itemId then setKT it ok ct else it)

/-- The `for ln_item in ln_items:` loop.  At the first failing item it raises
`(web_uri, link_to)`, leaving the mutations of the earlier iterations applied
in the open transaction; otherwise it applies every copy and returns. -/
def resolveLoop (mg : String → Option MatchVal) :
    List Item → List Item → List Item × Option (String × String)
  | db, [] => (db, none)
  | db, it :: rest =>
    match mg (coalesce it.link_to) with
    | none => (db, some (it.web_uri, coalesce it.link_to))
    | some v =>
      if coalesce v.object_key == "" || coalesce v.content_type == "" then
        (db, some (it.web_uri, coalesce it.link_to))
      else
        resolveLoop mg (updateItem db it.id v.object_key v.content_type) rest

/-- `Publish.resolve_links` over the session rows `db`, for the publish with
id `pubId`, with the given value of the LINK_ISOLATION flag.  Returns the
final session rows and the structured error, if any. -/
def resolve_links (isolation : Bool) (db : List Item) (pubId : String) :
    List Item × Option (String × String) :=
  resolveLoop (mgOf isolation db pubId) db (lnItems db pubId)

/-- A `resolve_links` call as issued by the running process: the source reads
the module global `LINK_ISOLATION`, computed from the environment once at
import; `currentEnv`, the value of EXODUS_GW_LINK_ISOLATION at call time, is
not consulted by the body. -/
def resolve_links_call (importEnv currentEnv : Option String)
    (db : List Item) (pubId : String) : List Item × Option (String × String) :=
  resolve_links (LINK_ISOLATION importEnv) db pubId

/-- An entity passed to the before_update listener. -/
inductive Entity
  | pub : Publish → Entity
  | item : Item → Entity
deriving DecidableEq, Repr

/-- `set_updated`, registered with `@event.listens_for(Publish, "before_update")`
and `@event.listens_for(Item, "before_update")`: sets `entity.updated` to the
current time. -/
def set_updated (now : Nat) : Entity → Entity
  | .pub p => .pub { p with updated := some now }
  | .item i => .item { i with updated := now }

/-- The updated timestamp of an entity. -/
def updatedOf : Entity → Option Nat
  | .pub p => p.updated
  | .item i => some i.updated

/-- The persistence boundary for one entity in one flush, modelling the
SQLAlchemy event dispatch for the listeners declared in the source: a
before_update listener runs exactly once per entity persisted as an update,
and not at all for an insert. -/
def persistEntity (isInsert : Bool) (now : Nat) (e : Entity) : Entity :=
  if isInsert then e else set_updated now e

/-- Derived characterization of one loop pass over a row: the update applied
to a row whose id occurs among the processed linked items. -/
def applyLn (mg : String → Option MatchVal) (ln : List Item) (x : Item) :
    Item :=
  match ln.find? (fun it => it.id == x.id) with
  | some it =>
    match mg (coalesce it.link_to) with
    | some v => setKT x v.object_key v.content_type
    | none => x
  | none => x

/-- Derived characterization of a successful call on one row: a linked item
receives the attributes of its match, every other row is untouched. -/
def resolveItem (mg : String → Option MatchVal) (pubId : String) (x : Item) :
    Item :=
  if isLnItem pubId x then
    match mg (coalesce x.link_to) with
    | some v => setKT x v.object_key v.content_type
    | none => x
  else x

/-! Concrete rows used by closed witness and counterexample theorems. -/

/-- A fully resolved, non-linked row at /a in publish p. -/
def rowA : Item := ⟨"a", "/a", some "k1", some "t1", none, true, 0, "p"⟩

/-- A linked row at /b pointing at /a, not yet resolved, in publish p. -/
def rowB : Item := ⟨"b", "/b", none, none, some "/a", true, 0, "p"⟩

/-- A linked row at /c pointing at /b (a chained link), in publish p. -/
def rowC : Item := ⟨"c", "/c", none, none, some "/b", true, 0, "p"⟩

/-- A linked row whose target /missing exists nowhere, in publish p. -/
def rowM : Item := ⟨"m", "/m", none, none, some "/missing", true, 0, "p"⟩

/-- A linked row at /b pointing at /a that already carries attribute values
of its own, in publish p. -/
def rowBK : Item := ⟨"b", "/b", some "kb", some "tb", some "/a", true, 0, "p"⟩

/-- A row at /b with an unresolvable link, in publish p. -/
def rowBm : Item := ⟨"b", "/b", none, none, some "/missing", true, 0, "p"⟩

/-- A fully resolved, non-linked row at /a in publish p1. -/
def rowA1 : Item := ⟨"a", "/a", some "k1", some "t1", none, true, 0, "p1"⟩

/-- A linked row at /b pointing at /a, in publish p2. -/
def rowB1 : Item := ⟨"b", "/b", none, none, some "/a", true, 0, "p2"⟩

/-! Helper lemmas. -/

lemma contains_iff_mem {l : List String} {a : String} :
    l.contains a = true ↔ a ∈ l := List.elem_iff

lemma getLast?_all_eq {α : Type} {l : List α} {a : α}
    (hne : l ≠ []) (h : ∀ x ∈ l, x = a) : l.getLast? = some a := by
  induction l with
  | nil => exact absurd rfl hne
  | cons x xs ih =>
    cases xs with
    | nil =>
      have hx : x = a := h x (by simp)
      simp [hx]
    | cons y ys =>
      rw [List.getLast?_cons_cons]
      exact ih (by simp) (fun z hz => h z (by simp [hz]))

lemma nodup_id_inj {db : List Item} (hnd : (db.map Item.id).Nodup)
    {x y : Item} (hx : x ∈ db) (hy : y ∈ db) (h : x.id = y.id) : x = y :=
  List.inj_on_of_nodup_map hnd hx hy h

lemma updateItem_map {α : Type} (f : Item → α)
    (hf : ∀ (x : Item) (k t : Option String), f (setKT x k t) = f x)
    (db : List Item) (i : String) (k t : Option String) :
    (updateItem db i k t).map f = db.map f := by
  unfold updateItem
  rw [List.map_map]
  apply List.map_congr_left
  intro x _
  show f (if x.id == i then setKT x k t else x) = f x
  by_cases h : (x.id == i) = true
  · rw [if_pos h, hf]
  · rw [if_neg h]

lemma updateItem_getElem (db : List Item) (i : String) (k t : Option String)
    (j : Nat) :
    (updateItem db i k t)[j]? = db[j]?.map (fun x =>
      if x.id == i then setKT x k t else x) := by
  unfold updateItem
  rw [List.getElem?_map]

lemma updateItem_getElem_ne (db : List Item) (i : String)
    (k t : Option String) (j : Nat) (x : Item)
    (hx : db[j]? = some x) (hne : x.id ≠ i) :
    (updateItem db i k t)[j]? = some x := by
  rw [updateItem_getElem, hx]
  have hb : (x.id == i) = false := by simpa using hne
  simp [hb]
  intro h
  exact absurd h hne

lemma resolveLoop_cons_fail {mg : String → Option MatchVal} {it : Item}
    (db rest : List Item) (h : failsFor mg it = true) :
    resolveLoop mg db (it :: rest) =
      (db, some (it.web_uri, coalesce it.link_to)) := by
  unfold failsFor at h
  cases hmg : mg (coalesce it.link_to) with
  | none => simp [resolveLoop, hmg]
  | some v =>
    rw [hmg] at h
    simp only [matchFails] at h
    simp [resolveLoop, hmg, h]

lemma resolveLoop_cons_ok {mg : String → Option MatchVal} {it : Item}
    {v : MatchVal} (db rest : List Item)
    (hmg : mg (coalesce it.link_to) = some v)
    (h : matchFails (some v) = false) :
    resolveLoop mg db (it :: rest) =
      resolveLoop mg (updateItem db it.id v.object_key v.content_type) rest := by
  simp only [matchFails, Bool.or_eq_false_iff] at h
  simp [resolveLoop, hmg, h.1, h.2]

lemma failsFor_some {mg : String → Option MatchVal} {it : Item}
    (h : failsFor mg it = false) :
    ∃ v, mg (coalesce it.link_to) = some v ∧ matchFails (some v) = false := by
  unfold failsFor at h
  cases hmg : mg (coalesce it.link_to) with
  | none => rw [hmg] at h; simp [matchFails] at h
  | some v => exact ⟨v, rfl, by rw [hmg] at h; exact h⟩

lemma resolveLoop_snd_none_iff (mg : String → Option MatchVal) :
    ∀ (ln db : List Item),
      (resolveLoop mg db ln).2 = none ↔ ∀ it ∈ ln, failsFor mg it = false := by
  intro ln
  induction ln with
  | nil => intro db; simp [resolveLoop]
  | cons it rest ih =>
    intro db
    by_cases hf : failsFor mg it = true
    · rw [resolveLoop_cons_fail db rest hf]
      simp only [List.mem_cons]
      constructor
      · intro h; exact absurd h (by simp)
      · intro h
        have := h it (Or.inl rfl)
        rw [hf] at this
        exact absurd this (by simp)
    · have hf0 : failsFor mg it = false := by
        cases h : failsFor mg it
        · rfl
        · exact absurd h hf
      obtain ⟨v, hmg, hv⟩ := failsFor_some hf0
      rw [resolveLoop_cons_ok db rest hmg hv, ih]
      constructor
      · intro h jt hjt
        rcases List.mem_cons.mp hjt with h1 | h1
        · rw [h1]; exact hf0
        · exact h jt h1
      · intro h jt hjt
        exact h jt (List.mem_cons_of_mem _ hjt)

lemma resolveLoop_snd_find {mg : String → Option MatchVal} {w : Item} :
    ∀ (ln db : List Item), ln.find? (failsFor mg) = some w →
      (resolveLoop mg db ln).2 = some (w.web_uri, coalesce w.link_to) := by
  intro ln
  induction ln with
  | nil => intro db h; simp at h
  | cons it rest ih =>
    intro db h
    by_cases hf : failsFor mg it = true
    · rw [List.find?_cons_of_pos _ hf] at h
      rw [resolveLoop_cons_fail db rest hf]
      rw [Option.some_inj.mp h]
    · have hf0 : failsFor mg it = false := by
        cases hb : failsFor mg it
        · rfl
        · exact absurd hb hf
      rw [List.find?_cons_of_neg _ (by simp [hf0])] at h
      obtain ⟨v, hmg, hv⟩ := failsFor_some hf0
      rw [resolveLoop_cons_ok db rest hmg hv]
      exact ih _ h

lemma resolveLoop_fst_map {α : Type} (f : Item → α)
    (hf : ∀ (x : Item) (k t : Option String),
      f { x with object_key := k, content_type := t } = f x)
    (mg : String → Option MatchVal) :
    ∀ (ln db : List Item), ((resolveLoop mg db ln).1).map f = db.map f := by
  intro ln
  induction ln with
  | nil => intro db; simp [resolveLoop]
  | cons it rest ih =>
    intro db
    by_cases hf1 : failsFor mg it = true
    · rw [resolveLoop_cons_fail db rest hf1]
    · have hf0 : failsFor mg it = false := by
        cases hb : failsFor mg it
        · rfl
        · exact absurd hb hf1
      obtain ⟨v, hmg, hv⟩ := failsFor_some hf0
      rw [resolveLoop_cons_ok db rest hmg hv, ih, updateItem_map f hf]

lemma resolveLoop_fst_frame {mg : String → Option MatchVal} :
    ∀ (ln db : List Item) (j : Nat) (x : Item), db[j]? = some x →
      (∀ it ∈ ln.takeWhile (fun i => !failsFor mg i), it.id ≠ x.id) →
      ((resolveLoop mg db ln).1)[j]? = some x := by
  intro ln
  induction ln with
  | nil => intro db j x hx _; simpa [resolveLoop] using hx
  | cons it rest ih =>
    intro db j x hx hids
    by_cases hf : failsFor mg it = true
    · rw [resolveLoop_cons_fail db rest hf]
      exact hx
    · have hf0 : failsFor mg it = false := by
        cases hb : failsFor mg it
        · rfl
        · exact absurd hb hf
      obtain ⟨v, hmg, hv⟩ := failsFor_some hf0
      rw [resolveLoop_cons_ok db rest hmg hv]
      have htw : (it :: rest).takeWhile (fun i => !failsFor mg i) =
          it :: rest.takeWhile (fun i => !failsFor mg i) := by
        rw [List.takeWhile_cons_of_pos (by simp [hf0])]
      rw [htw] at hids
      have hit : it.id ≠ x.id := hids it (List.mem_cons_self _ _)
      apply ih _ j x
      · exact updateItem_getElem_ne db it.id v.object_key v.content_type j x
          hx (fun h => hit h.symm)
      · intro jt hjt
        exact hids jt (List.mem_cons_of_mem _ hjt)

lemma applyLn_none {mg : String → Option MatchVal} {ln : List Item} {x : Item}
    (h : ln.find? (fun it => it.id == x.id) = none) : applyLn mg ln x = x := by
  unfold applyLn
  rw [h]

lemma applyLn_some {mg : String → Option MatchVal} {ln : List Item}
    {x it : Item} {v : MatchVal}
    (h : ln.find? (fun it2 => it2.id == x.id) = some it)
    (hmg : mg (coalesce it.link_to) = some v) :
    applyLn mg ln x = setKT x v.object_key v.content_type := by
  unfold applyLn
  rw [h]
  show (match mg (coalesce it.link_to) with
    | some w => setKT x w.object_key w.content_type
    | none => x) = setKT x v.object_key v.content_type
  rw [hmg]

lemma resolveLoop_success_map (mg : String → Option MatchVal) :
    ∀ (ln db : List Item),
      (∀ it ∈ ln, failsFor mg it = false) →
      ((ln.map Item.id).Nodup) →
      resolveLoop mg db ln = (db.map (applyLn mg ln), none) := by
  intro ln
  induction ln with
  | nil =>
    intro db _ _
    refine Prod.ext ?_ rfl
    show db = db.map (applyLn mg [])
    have h1 : db.map (applyLn mg []) = db.map id :=
      List.map_congr_left (fun x _ => rfl)
    rw [h1, List.map_id]
  | cons it rest ih =>
    intro db hok hnd
    have hf0 : failsFor mg it = false := hok it (List.mem_cons_self _ _)
    obtain ⟨v, hmg, hv⟩ := failsFor_some hf0
    rw [resolveLoop_cons_ok db rest hmg hv]
    have hnd2 : (it.id ∉ rest.map Item.id) ∧ (rest.map Item.id).Nodup := by
      rw [List.map_cons] at hnd
      exact List.nodup_cons.mp hnd
    rw [ih _ (fun jt hjt => hok jt (List.mem_cons_of_mem _ hjt)) hnd2.2]
    refine Prod.ext ?_ rfl
    show (updateItem db it.id v.object_key v.content_type).map
      (applyLn mg rest) = db.map (applyLn mg (it :: rest))
    unfold updateItem
    rw [List.map_map]
    apply List.map_congr_left
    intro x _
    show applyLn mg rest
      (if x.id == it.id then setKT x v.object_key v.content_type else x) =
      applyLn mg (it :: rest) x
    by_cases hxid : (x.id == it.id) = true
    · rw [if_pos hxid]
      have hxit : x.id = it.id := beq_iff_eq.mp hxid
      have hfind : rest.find? (fun jt => jt.id == x.id) = none := by
        apply List.find?_eq_none.mpr
        intro jt hjt
        simp only [beq_iff_eq]
        intro hid
        have hmem : it.id ∈ rest.map Item.id := by
          rw [← hxit, ← hid]
          exact List.mem_map_of_mem Item.id hjt
        exact hnd2.1 hmem
      have hL : applyLn mg rest (setKT x v.object_key v.content_type) =
          setKT x v.object_key v.content_type := applyLn_none hfind
      have hfind2 : (it :: rest).find? (fun jt => jt.id == x.id) = some it :=
        List.find?_cons_of_pos _ (beq_iff_eq.mpr hxit.symm)
      have hR : applyLn mg (it :: rest) x =
          setKT x v.object_key v.content_type := applyLn_some hfind2 hmg
      rw [hL, hR]
    · rw [if_neg hxid]
      have hstep : (it :: rest).find? (fun jt => jt.id == x.id) =
          rest.find? (fun jt => jt.id == x.id) := by
        apply List.find?_cons_of_neg
        simp only [beq_iff_eq]
        intro h
        exact hxid (beq_iff_eq.mpr h.symm)
      unfold applyLn
      rw [hstep]

lemma applyLn_eq_resolveItem (mg : String → Option MatchVal)
    (db : List Item) (pubId : String)
    (hnd : (db.map Item.id).Nodup) (x : Item) (hx : x ∈ db) :
    applyLn mg (lnItems db pubId) x = resolveItem mg pubId x := by
  by_cases hlx : isLnItem pubId x = true
  · have hxln : x ∈ lnItems db pubId := List.mem_filter.mpr ⟨hx, hlx⟩
    have hfs : ((lnItems db pubId).find? (fun it => it.id == x.id)).isSome :=
      List.find?_isSome.mpr ⟨x, hxln, by simp⟩
    obtain ⟨it0, hit0⟩ := Option.isSome_iff_exists.mp hfs
    have hmem : it0 ∈ lnItems db pubId := List.mem_of_find?_eq_some hit0
    have hid : it0.id = x.id := by simpa using List.find?_some hit0
    have heq : it0 = x :=
      nodup_id_inj hnd (List.mem_filter.mp hmem).1 hx hid
    unfold applyLn resolveItem
    rw [hit0, heq, if_pos hlx]
  · have hlx0 : isLnItem pubId x = false := by
      cases hb : isLnItem pubId x
      · rfl
      · exact absurd hb hlx
    have hfind : (lnItems db pubId).find? (fun it => it.id == x.id) = none := by
      apply List.find?_eq_none.mpr
      intro it0 hit0
      simp only [beq_iff_eq]
      intro hid
      have heq : it0 = x :=
        nodup_id_inj hnd (List.mem_filter.mp hit0).1 hx hid
      have := (List.mem_filter.mp hit0).2
      rw [heq, hlx0] at this
      exact absurd this (by simp)
    unfold applyLn resolveItem
    rw [hfind, if_neg (by simp [hlx0])]

lemma resolve_links_success (iso : Bool) (db : List Item) (pid : String)
    (hnd : (db.map Item.id).Nodup)
    (hok : ∀ it ∈ lnItems db pid, failsFor (mgOf iso db pid) it = false) :
    resolve_links iso db pid =
      (db.map (resolveItem (mgOf iso db pid) pid), none) := by
  unfold resolve_links
  have hndln : ((lnItems db pid).map Item.id).Nodup := by
    apply List.Nodup.sublist _ hnd
    exact List.Sublist.map Item.id (List.filter_sublist db)
  rw [resolveLoop_success_map _ _ db hok hndln]
  refine Prod.ext ?_ rfl
  show db.map (applyLn (mgOf iso db pid) (lnItems db pid)) =
    db.map (resolveItem (mgOf iso db pid) pid)
  apply List.map_congr_left
  intro x hx
  exact applyLn_eq_resolveItem _ db pid hnd x hx

lemma resolveItem_field {α : Type} (f : Item → α)
    (hf : ∀ (x : Item) (k t : Option String),
      f { x with object_key := k, content_type := t } = f x)
    (mg : String → Option MatchVal) (pid : String) (x : Item) :
    f (resolveItem mg pid x) = f x := by
  unfold resolveItem
  by_cases h : isLnItem pid x = true
  · rw [if_pos h]
    cases mg (coalesce x.link_to) with
    | none => rfl
    | some v => exact hf x v.object_key v.content_type
  · rw [if_neg h]

lemma resolveItem_not_ln {mg : String → Option MatchVal} {pid : String}
    {x : Item} (h : isLnItem pid x = false) :
    resolveItem mg pid x = x := by
  unfold resolveItem
  rw [if_neg (by simp [h])]

lemma resolveItem_idem (mg : String → Option MatchVal) (pid : String)
    (x : Item) :
    resolveItem mg pid (resolveItem mg pid x) = resolveItem mg pid x := by
  by_cases h : isLnItem pid x = true
  · cases hmg : mg (coalesce x.link_to) with
    | none =>
      have hx : resolveItem mg pid x = x := by
        unfold resolveItem
        rw [if_pos h, hmg]
      rw [hx]
      exact hx
    | some v =>
      have hx : resolveItem mg pid x = setKT x v.object_key v.content_type := by
        unfold resolveItem
        rw [if_pos h, hmg]
      have h2 : isLnItem pid (setKT x v.object_key v.content_type) = true := h
      have hmg2 : mg (coalesce (setKT x v.object_key v.content_type).link_to) =
          some v := hmg
      have hy : resolveItem mg pid (setKT x v.object_key v.content_type) =
          setKT x v.object_key v.content_type := by
        unfold resolveItem
        rw [if_pos h2, hmg2]
        rfl
      rw [hx]
      exact hy
  · have hlx0 : isLnItem pid x = false := by
      cases hb : isLnItem pid x
      · rfl
      · exact absurd hb h
    have hx : resolveItem mg pid x = x := resolveItem_not_ln hlx0
    rw [hx]
    exact hx

lemma resolve_two (iso : Bool) (pid u k t : String) (A B : Item)
    (hAln : isLnItem pid A = false)
    (hAu : A.web_uri = u)
    (hAscope : (!iso || A.publish_id == pid) = true)
    (hAk : A.object_key = some k) (hk : k ≠ "")
    (hAt : A.content_type = some t) (ht : t ≠ "")
    (hBp : B.publish_id = pid) (hBl : B.link_to = some u) (hu : u ≠ "")
    (hBu : B.web_uri ≠ u) (hid : A.id ≠ B.id) :
    resolve_links iso [A, B] pid = ([A, setKT B (some k) (some t)], none) := by
  have hBln : isLnItem pid B = true := by
    unfold isLnItem
    rw [hBp, hBl]
    simp [coalesce, hu]
  have hln : lnItems [A, B] pid = [B] := by
    unfold lnItems
    rw [List.filter_cons_of_neg (by simp [hAln]),
      List.filter_cons_of_pos hBln, List.filter_nil]
  have hpaths : lnItemPaths [A, B] pid = [u] := by
    unfold lnItemPaths
    rw [hln]
    simp [coalesce, hBl]
  have hpredA : inMatchScope iso pid [u] A = true := by
    unfold inMatchScope
    rw [hAu]
    simp [hAscope]
  have hpredB : inMatchScope iso pid [u] B = false := by
    unfold inMatchScope
    have hc : ([u].contains B.web_uri) = false := by
      simp [hBu]
    rw [hc]
    rfl
  have hmr : matchRows iso [A, B] pid = [A] := by
    unfold matchRows
    rw [hpaths]
    rw [List.filter_cons_of_pos hpredA,
      List.filter_cons_of_neg (by simp [hpredB]), List.filter_nil]
  have hmg : mgOf iso [A, B] pid u = some ⟨some k, some t⟩ := by
    unfold mgOf
    rw [hmr]
    unfold matchesGet
    rw [List.filter_cons_of_pos (by simp [hAu]), List.filter_nil]
    simp [hAk, hAt]
  have hcb : coalesce B.link_to = u := by
    rw [hBl]
    rfl
  have hmgB : mgOf iso [A, B] pid (coalesce B.link_to) =
      some ⟨some k, some t⟩ := by
    rw [hcb]
    exact hmg
  unfold resolve_links
  rw [hln]
  rw [resolveLoop_cons_ok [A, B] [] hmgB
    (by simp [matchFails, coalesce, hk, ht])]
  refine Prod.ext ?_ rfl
  show updateItem [A, B] B.id (some k) (some t) = [A, setKT B (some k) (some t)]
  unfold updateItem
  simp only [List.map_cons, List.map_nil]
  rw [if_neg (by simp [hid]), if_pos (by simp)]

/-! Claim theorems. -/

/-- C2: if some linked item of the publish has no usable match under the
active scope, resolve_links raises a structured error carrying the web_uri
and link target of the first such item in iteration order, and every row
whose id is not among the successfully processed prefix of linked items is
left unchanged by the call. -/
theorem C2_thm (iso : Bool) (db : List Item) (pid : String) (w : Item)
    (hw : (lnItems db pid).find? (failsFor (mgOf iso db pid)) = some w) :
    (resolve_links iso db pid).2 = some (w.web_uri, coalesce w.link_to) ∧
    ∀ (j : Nat) (x : Item), db[j]? = some x →
      (∀ it ∈ (lnItems db pid).takeWhile
        (fun i => !failsFor (mgOf iso db pid) i), it.id ≠ x.id) →
      ((resolve_links iso db pid).1)[j]? = some x := by
  constructor
  · unfold resolve_links
    exact resolveLoop_snd_find _ db hw
  · intro j x hx hids
    unfold resolve_links
    exact resolveLoop_fst_frame _ db j x hx hids

/-- Witness for C2 at a publish holding one linked item whose target
/missing matches nothing: the error carries that item and its target, and
the row itself is unchanged. -/
theorem C2_witness :
    ((lnItems [rowBm] "p").find? (failsFor (mgOf true [rowBm] "p")) =
      some rowBm) ∧
    (resolve_links true [rowBm] "p").2 = some ("/b", "/missing") ∧
    ((resolve_links true [rowBm] "p").1)[0]? = some rowBm := by
  refine ⟨by decide, ?_, ?_⟩
  · exact (C2_thm true [rowBm] "p" rowBm (by decide)).1
  · exact (C2_thm true [rowBm] "p" rowBm (by decide)).2 0 rowBm (by decide)
      (by decide)

/-- C6: a row whose link_to is absent or empty is never modified by
resolve_links, whether the call succeeds or raises: its entry in the
final session rows is exactly its entry in the initial ones. -/
theorem C6_thm (iso : Bool) (db : List Item) (pid : String)
    (hnd : (db.map Item.id).Nodup) (j : Nat) (x : Item)
    (hx : db[j]? = some x) (hl : coalesce x.link_to = "") :
    ((resolve_links iso db pid).1)[j]? = some x := by
  unfold resolve_links
  apply resolveLoop_fst_frame _ db j x hx
  intro it hit heq
  have hit2 : it ∈ lnItems db pid :=
    (List.takeWhile_sublist _).subset hit
  have hxm : x ∈ db := List.getElem?_mem hx
  have hitdb : it ∈ db := (List.mem_filter.mp hit2).1
  have heq2 : it = x := nodup_id_inj hnd hitdb hxm heq
  have hlt : isLnItem pid it = true := (List.mem_filter.mp hit2).2
  rw [heq2] at hlt
  unfold isLnItem at hlt
  rw [hl] at hlt
  simp at hlt

/-- Witness for C6: the non-linked resolved row of a two-row publish is
untouched while the linked row is rewritten. -/
theorem C6_witness :
    (coalesce rowA.link_to = "") ∧
    ((resolve_links true [rowA, rowB] "p").1)[0]? = some rowA :=
  ⟨by decide, C6_thm true [rowA, rowB] "p" (by decide) 0 rowA (by decide)
    (by decide)⟩

/-- C7: whenever a Publish or Item entity is persisted as an update, the
before_update hook sets its updated timestamp to the current time,
overriding whatever value the caller left there, uniformly for both entity
kinds; an insert is not touched by the hook. -/
theorem C7_thm (now : Nat) (e : Entity) :
    updatedOf (persistEntity false now e) = some now ∧
    persistEntity true now e = e := by
  constructor
  · cases e with
    | pub p => rfl
    | item i => rfl
  · rfl

/-- C8: when the scope setting is absent or empty, the flag defaults to
isolated mode. -/
theorem C8_thm (s : Option String) (h : s = none ∨ s = some "") :
    LINK_ISOLATION s = true := by
  rcases h with h | h <;> rw [h] <;> rfl

/-- Witness for C8 at the absent setting. -/
theorem C8_witness : LINK_ISOLATION none = true :=
  C8_thm none (Or.inl rfl)

/-- C10: resolve_links changes at most the object_key and content_type
columns: the id, web_uri, link_to, dirty, updated and publish_id columns
of every session row are unchanged, position by position, whether the call
succeeds or raises.  The updated timestamp is stamped only later, by the
persistence hook, and no Publish row is read or written by the operation
at all (it is not part of the state the resolver touches). -/
theorem C10_thm (iso : Bool) (db : List Item) (pid : String) :
    ((resolve_links iso db pid).1.map Item.id = db.map Item.id) ∧
    ((resolve_links iso db pid).1.map Item.web_uri = db.map Item.web_uri) ∧
    ((resolve_links iso db pid).1.map Item.link_to = db.map Item.link_to) ∧
    ((resolve_links iso db pid).1.map Item.dirty = db.map Item.dirty) ∧
    ((resolve_links iso db pid).1.map Item.updated = db.map Item.updated) ∧
    ((resolve_links iso db pid).1.map Item.publish_id =
      db.map Item.publish_id) := by
  unfold resolve_links
  exact ⟨resolveLoop_fst_map Item.id (fun x k t => rfl) _ _ _,
    resolveLoop_fst_map Item.web_uri (fun x k t => rfl) _ _ _,
    resolveLoop_fst_map Item.link_to (fun x k t => rfl) _ _ _,
    resolveLoop_fst_map Item.dirty (fun x k t => rfl) _ _ _,
    resolveLoop_fst_map Item.updated (fun x k t => rfl) _ _ _,
    resolveLoop_fst_map Item.publish_id (fun x k t => rfl) _ _ _⟩

/-- C4 counterexample: with the import-time environment selecting isolated
mode, changing the environment variable to select global mode before a
later call has no effect: the call still behaves isolated (it raises on a
cross-publish link), while the behavior the claim predicts for the current
configuration would be success. -/
theorem C4_counterexample :
    (resolve_links_call (some "1") (some "0") [rowA1, rowB1] "p2").2 ≠
      none ∧
    (resolve_links (LINK_ISOLATION (some "0")) [rowA1, rowB1] "p2").2 =
      none := by
  refine ⟨?_, ?_⟩ <;> decide

/-- C4 amended: the scope flag is computed once from the environment at
module import; every resolve_links call uses that import-time value and
ignores the configuration in effect at call time, so changing the
configuration between two calls does not change the scope of the second. -/
theorem C4_amended_thm (importEnv ce1 ce2 : Option String)
    (db : List Item) (pid : String) :
    resolve_links_call importEnv ce1 db pid =
      resolve_links (LINK_ISOLATION importEnv) db pid ∧
    resolve_links_call importEnv ce1 db pid =
      resolve_links_call importEnv ce2 db pid :=
  ⟨rfl, rfl⟩

/-- C1 counterexample: a publish containing exactly the A and B the claim
describes (A non-linked at /a with non-empty key and type, B linked to /a
with empty object_key) plus one more linked item whose target is missing
does not return normally: the call raises for the extra item, refuting the
unconditional claim that every such publish resolves. -/
theorem C1_counterexample :
    (resolve_links true [rowA, rowB, rowM] "p").2 =
      some ("/m", "/missing") := by decide

/-- C1 amended: for a publish whose session rows are exactly A (non-linked,
web_uri u, object_key k and content_type t non-empty) and B (link_to u, a
different web_uri, empty object_key), resolve_links returns normally in
either scope mode and afterwards B carries object_key k and content_type t,
the values of its link target at resolution time; when the publish holds
further linked items the call is only guaranteed to behave this way if all
of them resolve as well. -/
theorem C1_amended_thm (iso : Bool) (pid u k t : String) (A B : Item)
    (hApid : A.publish_id = pid) (hAu : A.web_uri = u)
    (hAl : coalesce A.link_to = "")
    (hAk : A.object_key = some k) (hk : k ≠ "")
    (hAt : A.content_type = some t) (ht : t ≠ "")
    (hBp : B.publish_id = pid) (hBl : B.link_to = some u) (hu : u ≠ "")
    (hBk : coalesce B.object_key = "")
    (hBu : B.web_uri ≠ u) (hid : A.id ≠ B.id) :
    resolve_links iso [A, B] pid =
      ([A, setKT B (some k) (some t)], none) := by
  apply resolve_two iso pid u k t A B
  · unfold isLnItem
    rw [hAl]
    simp
  · exact hAu
  · rw [hApid]
    simp
  · exact hAk
  · exact hk
  · exact hAt
  · exact ht
  · exact hBp
  · exact hBl
  · exact hu
  · exact hBu
  · exact hid

/-- Witness for C1 amended at the concrete two-row publish of the spec
scenario. -/
theorem C1_amended_witness :
    resolve_links true [rowA, rowB] "p" =
      ([rowA, setKT rowB (some "k1") (some "t1")], none) :=
  C1_amended_thm true "p" "/a" "k1" "t1" rowA rowB (by decide) (by decide)
    (by decide) (by decide) (by decide) (by decide) (by decide) (by decide)
    (by decide) (by decide) (by decide) (by decide) (by decide)

/-- C3: with isolated mode on, a publish whose linked item points at a uri
owned only by a different publish raises, for any store in which the
publish has no local item at that uri; with isolated mode off, the same
two-row setup succeeds and copies the foreign attributes onto the linked
item. -/
theorem C3_thm (p1 p2 u k t : String) (A B : Item)
    (hp : p1 ≠ p2)
    (hA : A.publish_id = p1) (hAu : A.web_uri = u)
    (hAl : coalesce A.link_to = "")
    (hAk : A.object_key = some k) (hk : k ≠ "")
    (hAt : A.content_type = some t) (ht : t ≠ "")
    (hBp : B.publish_id = p2) (hBl : B.link_to = some u) (hu : u ≠ "")
    (hBu : B.web_uri ≠ u) (hid : A.id ≠ B.id) :
    (∀ db : List Item, B ∈ db →
      (∀ x ∈ db, x.publish_id = p2 → x.web_uri ≠ u) →
      (resolve_links true db p2).2 ≠ none) ∧
    resolve_links false [A, B] p2 =
      ([A, setKT B (some k) (some t)], none) := by
  constructor
  · intro db hBdb hnolocal
    have hBln : isLnItem p2 B = true := by
      unfold isLnItem
      rw [hBp, hBl]
      simp [coalesce, hu]
    have hBmem : B ∈ lnItems db p2 := List.mem_filter.mpr ⟨hBdb, hBln⟩
    have hmgnone : mgOf true db p2 u = none := by
      unfold mgOf matchesGet
      have hfilter : (matchRows true db p2).filter
          (fun r => r.web_uri == u) = [] := by
        rw [List.filter_eq_nil_iff]
        intro r hr
        have h1 := List.mem_filter.mp hr
        have h2 : r.publish_id = p2 := by
          have h3 := h1.2
          unfold inMatchScope at h3
          simp only [Bool.and_eq_true] at h3
          simpa using h3.2
        simp only [beq_iff_eq]
        exact hnolocal r h1.1 h2
      rw [hfilter]
      rfl
    have hBfails : failsFor (mgOf true db p2) B = true := by
      unfold failsFor
      rw [show coalesce B.link_to = u from by rw [hBl]; rfl, hmgnone]
      rfl
    obtain ⟨w, hw⟩ := Option.isSome_iff_exists.mp
      (List.find?_isSome.mpr ⟨B, hBmem, hBfails⟩)
    unfold resolve_links
    rw [resolveLoop_snd_find _ db hw]
    simp
  · apply resolve_two false p2 u k t A B
    · unfold isLnItem
      rw [hAl]
      simp
    · exact hAu
    · simp
    · exact hAk
    · exact hk
    · exact hAt
    · exact ht
    · exact hBp
    · exact hBl
    · exact hu
    · exact hBu
    · exact hid

/-- Witness for C3 at the concrete two-publish store: isolated mode raises,
global mode copies the foreign attributes. -/
theorem C3_witness :
    (resolve_links true [rowA1, rowB1] "p2").2 ≠ none ∧
    resolve_links false [rowA1, rowB1] "p2" =
      ([rowA1, setKT rowB1 (some "k1") (some "t1")], none) := by
  have h := C3_thm "p1" "p2" "/a" "k1" "t1" rowA1 rowB1 (by decide)
    (by decide) (by decide) (by decide) (by decide) (by decide) (by decide)
    (by decide) (by decide) (by decide) (by decide) (by decide) (by decide)
  exact ⟨h.1 [rowA1, rowB1] (by decide) (by decide), h.2⟩

/-- C9 counterexample: with C linked to /b and B the row at /b with empty
attributes because its own link target is missing, the raise is not for C:
iteration hits B first and the error names B and its target, refuting the
claim that the error is raised for C. -/
theorem C9_counterexample :
    (resolve_links true [rowBm, rowC] "p").2 =
      some ("/b", "/missing") := by decide

/-- C9 amended: chained links are not resolved within a single call.  If B
is the only row of the publish at uri ub and its object_key or content_type
is empty when the call starts, and C links to ub, then resolve_links in
isolated mode raises, and when every other linked item of the publish
resolves, the error names C and its target ub — even when resolving B
before C would have made C resolvable, because the URI-to-attributes
mapping is built once from the pre-mutation state. -/
theorem C9_amended_thm (db : List Item) (pid ub : String) (B C : Item)
    (hB : B ∈ db) (hBp : B.publish_id = pid) (hBu : B.web_uri = ub)
    (hBempty : coalesce B.object_key = "" ∨ coalesce B.content_type = "")
    (hC : C ∈ db) (hCp : C.publish_id = pid) (hCl : C.link_to = some ub)
    (hub : ub ≠ "")
    (huniq : ∀ x ∈ db, x.publish_id = pid → x.web_uri = ub → x = B)
    (hothers : ∀ it ∈ lnItems db pid, it ≠ C →
      failsFor (mgOf true db pid) it = false) :
    (resolve_links true db pid).2 = some (C.web_uri, ub) := by
  have hCln : isLnItem pid C = true := by
    unfold isLnItem
    rw [hCp, hCl]
    simp [coalesce, hub]
  have hCmem : C ∈ lnItems db pid := List.mem_filter.mpr ⟨hC, hCln⟩
  have hpmem : ub ∈ lnItemPaths db pid := by
    unfold lnItemPaths
    refine List.mem_map.mpr ⟨C, hCmem, ?_⟩
    rw [hCl]
    rfl
  have hBpred : inMatchScope true pid (lnItemPaths db pid) B = true := by
    unfold inMatchScope
    have hc : (lnItemPaths db pid).contains ub = true :=
      contains_iff_mem.mpr hpmem
    rw [hBu, hBp, hc]
    simp
  have hBrow : B ∈ matchRows true db pid := List.mem_filter.mpr ⟨hB, hBpred⟩
  have hfilterB : ∀ r ∈ (matchRows true db pid).filter
      (fun r => r.web_uri == ub), r = B := by
    intro r hr
    have h1 := List.mem_filter.mp hr
    have h2 := List.mem_filter.mp h1.1
    have hru : r.web_uri = ub := beq_iff_eq.mp h1.2
    have hrp : r.publish_id = pid := by
      have h3 := h2.2
      unfold inMatchScope at h3
      simp only [Bool.and_eq_true] at h3
      simpa using h3.2
    exact huniq r h2.1 hrp hru
  have hne2 : (matchRows true db pid).filter (fun r => r.web_uri == ub) ≠
      [] := by
    apply List.ne_nil_of_mem
    exact List.mem_filter.mpr ⟨hBrow, beq_iff_eq.mpr hBu⟩
  have hmgub : mgOf true db pid ub =
      some ⟨B.object_key, B.content_type⟩ := by
    unfold mgOf matchesGet
    apply getLast?_all_eq
    · intro hc
      rw [List.map_eq_nil_iff] at hc
      exact hne2 hc
    · intro y hy
      obtain ⟨r, hr, hry⟩ := List.mem_map.mp hy
      rw [← hry, hfilterB r hr]
  have hCfails : failsFor (mgOf true db pid) C = true := by
    unfold failsFor
    rw [show coalesce C.link_to = ub from by rw [hCl]; rfl, hmgub]
    rcases hBempty with h | h <;> simp [matchFails, h]
  obtain ⟨w, hw⟩ := Option.isSome_iff_exists.mp
    (List.find?_isSome.mpr ⟨C, hCmem, hCfails⟩)
  have hwC : w = C := by
    by_contra hne
    have hwln : w ∈ lnItems db pid := List.mem_of_find?_eq_some hw
    have := hothers w hwln hne
    rw [List.find?_some hw] at this
    exact absurd this (by simp)
  rw [hwC] at hw
  unfold resolve_links
  rw [resolveLoop_snd_find _ db hw]
  rw [show coalesce C.link_to = ub from by rw [hCl]; rfl]

/-- Witness for C9 amended at the chain A at /a, B at /b linked to /a with
empty attributes, C at /c linked to /b: only C fails, and the error names C
and /b. -/
theorem C9_amended_witness :
    (resolve_links true [rowA, rowB, rowC] "p").2 = some ("/c", "/b") :=
  C9_amended_thm [rowA, rowB, rowC] "p" "/b" rowB rowC (by decide)
    (by decide) (by decide) (by decide) (by decide) (by decide) (by decide)
    (by decide) (by decide) (by decide)

/-- C5 counterexample: a publish with a chain (B at /b links to /a but
already carries values kb, tb of its own; C links to /b) resolves fully on
the first call, yet a second call on the resolved state mutates C again:
the match map is rebuilt from the now-updated state of B, so C receives k1,
t1 instead of kb, tb.  The second call raises no error but is not
mutation-free, refuting the claim. -/
theorem C5_counterexample :
    (resolve_links true [rowA, rowBK, rowC] "p").2 = none ∧
    (resolve_links true
      ((resolve_links true [rowA, rowBK, rowC] "p").1) "p").2 = none ∧
    (resolve_links true
      ((resolve_links true [rowA, rowBK, rowC] "p").1) "p").1 ≠
      (resolve_links true [rowA, rowBK, rowC] "p").1 := by
  refine ⟨?_, ?_, ?_⟩ <;> decide

/-- C5 amended: a second resolve_links call on a state fully resolved by a
first call raises no error and performs no mutation, provided no linked
item of the publish is itself the link target of a linked item (no chained
links); with chains the second call still succeeds but may overwrite the
chained copies with values from the updated state. -/
theorem C5_amended_thm (iso : Bool) (db db1 : List Item) (pid : String)
    (hnd : (db.map Item.id).Nodup)
    (hchain : ∀ x ∈ db, isLnItem pid x = true →
      (lnItemPaths db pid).contains x.web_uri = false)
    (h1 : resolve_links iso db pid = (db1, none)) :
    resolve_links iso db1 pid = (db1, none) := by
  have hok : ∀ it ∈ lnItems db pid,
      failsFor (mgOf iso db pid) it = false := by
    have h2 : (resolve_links iso db pid).2 = none := by rw [h1]
    unfold resolve_links at h2
    exact (resolveLoop_snd_none_iff _ _ db).mp h2
  have hchar := resolve_links_success iso db pid hnd hok
  have hdb1 : db1 = db.map (resolveItem (mgOf iso db pid) pid) :=
    congrArg Prod.fst (h1.symm.trans hchar)
  have hfid : ∀ x, (resolveItem (mgOf iso db pid) pid x).id = x.id :=
    fun x => resolveItem_field Item.id (fun _ _ _ => rfl) _ pid x
  have hfuri : ∀ x,
      (resolveItem (mgOf iso db pid) pid x).web_uri = x.web_uri :=
    fun x => resolveItem_field Item.web_uri (fun _ _ _ => rfl) _ pid x
  have hflink : ∀ x,
      (resolveItem (mgOf iso db pid) pid x).link_to = x.link_to :=
    fun x => resolveItem_field Item.link_to (fun _ _ _ => rfl) _ pid x
  have hfpub : ∀ x,
      (resolveItem (mgOf iso db pid) pid x).publish_id = x.publish_id :=
    fun x => resolveItem_field Item.publish_id (fun _ _ _ => rfl) _ pid x
  have hfln : ∀ x, isLnItem pid (resolveItem (mgOf iso db pid) pid x) =
      isLnItem pid x :=
    fun x => resolveItem_field (isLnItem pid) (fun _ _ _ => rfl) _ pid x
  have hfco : ∀ x, coalesce (resolveItem (mgOf iso db pid) pid x).link_to =
      coalesce x.link_to :=
    fun x => by rw [hflink x]
  have hln1 : lnItems db1 pid =
      (lnItems db pid).map (resolveItem (mgOf iso db pid) pid) := by
    unfold lnItems
    rw [hdb1, List.filter_map]
    have hfc : db.filter (isLnItem pid ∘ resolveItem (mgOf iso db pid) pid) =
        db.filter (isLnItem pid) := List.filter_congr (fun x _ => hfln x)
    rw [hfc]
  have hpaths1 : lnItemPaths db1 pid = lnItemPaths db pid := by
    unfold lnItemPaths
    rw [hln1, List.map_map]
    exact List.map_congr_left (fun x _ => hfco x)
  have hrows1 : matchRows iso db1 pid = matchRows iso db pid := by
    unfold matchRows
    rw [hpaths1, hdb1, List.filter_map]
    have hfc2 : db.filter (inMatchScope iso pid (lnItemPaths db pid) ∘
        resolveItem (mgOf iso db pid) pid) =
        db.filter (inMatchScope iso pid (lnItemPaths db pid)) := by
      apply List.filter_congr
      intro x _
      show inMatchScope iso pid (lnItemPaths db pid)
        (resolveItem (mgOf iso db pid) pid x) =
        inMatchScope iso pid (lnItemPaths db pid) x
      unfold inMatchScope
      rw [hfuri x, hfpub x]
    rw [hfc2]
    have hfix : ∀ x ∈ db.filter (inMatchScope iso pid (lnItemPaths db pid)),
        resolveItem (mgOf iso db pid) pid x = x := by
      intro x hx
      have h2 := List.mem_filter.mp hx
      have hcont : (lnItemPaths db pid).contains x.web_uri = true := by
        have h3 := h2.2
        unfold inMatchScope at h3
        simp only [Bool.and_eq_true] at h3
        exact h3.1
      have hnl : isLnItem pid x = false := by
        cases hb : isLnItem pid x
        · rfl
        · rw [hchain x h2.1 hb] at hcont
          exact absurd hcont (by simp)
      exact resolveItem_not_ln hnl
    rw [List.map_congr_left hfix]
    simp
  have hmg1 : mgOf iso db1 pid = mgOf iso db pid := by
    unfold mgOf
    rw [hrows1]
  have hnd1 : (db1.map Item.id).Nodup := by
    rw [hdb1, List.map_map]
    have hmapid : db.map (Item.id ∘ resolveItem (mgOf iso db pid) pid) =
        db.map Item.id := List.map_congr_left (fun x _ => hfid x)
    rw [hmapid]
    exact hnd
  have hok1 : ∀ it ∈ lnItems db1 pid,
      failsFor (mgOf iso db1 pid) it = false := by
    rw [hmg1, hln1]
    intro it1 hit1
    obtain ⟨x, hx, hxi⟩ := List.mem_map.mp hit1
    rw [← hxi]
    unfold failsFor
    rw [hfco x]
    exact hok x hx
  have hfinal := resolve_links_success iso db1 pid hnd1 hok1
  rw [hfinal, hmg1]
  refine Prod.ext ?_ rfl
  show db1.map (resolveItem (mgOf iso db pid) pid) = db1
  rw [hdb1, List.map_map]
  exact List.map_congr_left (fun x _ => resolveItem_idem _ pid x)

/-- Witness for C5 amended: the two-row publish of the basic scenario has
no chained links; after its first call resolves it, a second call is a
no-op and raises nothing. -/
theorem C5_amended_witness :
    resolve_links true
      [rowA, ⟨"b", "/b", some "k1", some "t1", some "/a", true, 0, "p"⟩]
      "p" =
    ([rowA, ⟨"b", "/b", some "k1", some "t1", some "/a", true, 0, "p"⟩],
      none) :=
  C5_amended_thm true [rowA, rowB]
    [rowA, ⟨"b", "/b", some "k1", some "t1", some "/a", true, 0, "p"⟩]
    "p" (by decide) (by decide) (by decide)
